import Mathlib

/-!
Shallow embedding of `podcast_sync.py` (simple-podcast-sync).

Conventions of the embedding:
* Pure Python string manipulation is translated to functions on `List Char`
  (Python `str` slicing/indexing is by code point, as is `List Char`).
* The filesystem is explicit state: `FS := String → Option Nat` maps a file
  path to `some size` (bytes) when the file exists, `none` otherwise.
* External effects (sqlite rows, `shutil.which`, `ffmpeg`, `shutil.move`,
  `os.unlink` success, `urllib.parse.unquote`, `datetime.now()`) are
  parameters of the model, since they are outside the repository's code.
* Python `datetime` values are represented as `Int` seconds since the Core
  Data reference date 2001-01-01T00:00:00 (so `datetime(2001,1,1)` is `0`
  and `datetime(2001,1,2)` is `86400`); `timedelta(seconds=s)` addition is
  integer addition in this representation.
-/

/-- The characters removed by `re.sub(r'[<>:"/\\|?*]', "", text)` in
`sanitize_filename`. -/
def forbiddenChars : List Char := ['<', '>', ':', '"', '/', '\\', '|', '?', '*']

/-- The characters stripped from both ends by Python `text.strip(" .")`. -/
def isStripChar (c : Char) : Bool := c = ' ' || c = '.'

/-- Model of Python `str.strip(" .")`: drop characters in the strip set from
the front, then from the back. -/
def stripDots (cs : List Char) : List Char :=
  ((cs.dropWhile isStripChar).reverse.dropWhile isStripChar).reverse

/-- `sanitize_filename` from `podcast_sync.py`, on the character list:
replace spaces with underscores, remove the invalid filename characters,
strip leading/trailing spaces and dots, and truncate to 200 characters. -/
def sanitizeChars (cs : List Char) : List Char :=
  (stripDots ((cs.map (fun c => if c = ' ' then '_' else c)).filter
    (fun c => !(forbiddenChars.contains c)))).take 200

/-- `sanitize_filename(text)` from `podcast_sync.py`. -/
def sanitize_filename (text : String) : String := ⟨sanitizeChars text.data⟩

/-- Split a character list on `'/'` (used to model `pathlib` path parsing). -/
def splitOnSlash : List Char → List (List Char)
  | [] => [[]]
  | c :: rest =>
    match splitOnSlash rest with
    | [] => if c = '/' then [[], []] else [[c]]
    | a :: as => if c = '/' then [] :: a :: as else (c :: a) :: as

/-- Model of `pathlib.PurePath.name`: the last non-empty `/`-separated
component of the path (empty for the root path or the empty path). -/
def pathNameChars (cs : List Char) : List Char :=
  (((splitOnSlash cs).filter (fun s => !s.isEmpty)).getLast?).getD []

/-- The index of the last `'.'` in a character list (Python `str.rfind('.')`),
`none` when there is no dot. -/
def lastDotIdx : List Char → Option Nat
  | [] => none
  | c :: rest =>
    match lastDotIdx rest with
    | some i => some (i + 1)
    | none => if c = '.' then some 0 else none

/-- Model of `pathlib.PurePath.suffix`: the part of the name from its last
dot on, provided that dot is neither the first nor the last character of the
name; empty otherwise. -/
def pathSuffixChars (cs : List Char) : List Char :=
  match lastDotIdx (pathNameChars cs) with
  | some i =>
    if 0 < i && i + 1 < (pathNameChars cs).length then (pathNameChars cs).drop i
    else []
  | none => []

/-- `Path(p).suffix` on strings. -/
def pathSuffix (p : String) : String := ⟨pathSuffixChars p.data⟩

/-- The `PodcastEpisode` class: episode metadata from the Apple Podcasts
library.  `date_added` is in seconds since 2001-01-01T00:00:00. -/
structure PodcastEpisode where
  title : String
  podcast : String
  file_path : String
  date_added : Int
  selected : Bool
deriving DecidableEq

/-- `PodcastEpisode.filename`: sanitized title plus the source file's
extension, defaulting to `.mp3` when the source path has no suffix. -/
def PodcastEpisode.filename (ep : PodcastEpisode) : String :=
  sanitize_filename ep.title ++
    (if pathSuffix ep.file_path = "" then ".mp3" else pathSuffix ep.file_path)

/-- The `DeviceFile` class: a file on the device, with its display name
(path relative to the device root), absolute path, and the user's keep flag
(default `false` = remove). -/
structure DeviceFile where
  name : String
  path : String
  keep : Bool
deriving DecidableEq

/-- The filesystem as explicit state: `some size` when the file at a path
exists (with its size in bytes), `none` when it does not. -/
def FS : Type := String → Option Nat

/-- Update the filesystem at one path (create/overwrite with `some size`,
delete with `none`). -/
def setFile (fs : FS) (p : String) (v : Option Nat) : FS :=
  fun q => if q = p then v else fs q

/-- Python `destination.exists() and destination.stat().st_size > 0`. -/
def existsNonzero (fs : FS) (p : String) : Bool :=
  match fs p with
  | some s => decide (0 < s)
  | none => false

/-- `DeviceManager.device_path`, the fixed mount point. -/
def devicePath : String := "/Volumes/XTRAINERZ"

/-- The destination path `device_path / "Podcasts" / episode.filename` used
by `DeviceManager.copy_episode`. -/
def destPath (ep : PodcastEpisode) : String :=
  devicePath ++ "/Podcasts/" ++ ep.filename

/-- The environment a `DeviceManager` operation runs in.  `connected` models
`device_path.exists() and device_path.is_dir()`; `ffmpegAvailable` models
`shutil.which("ffmpeg") is not None`; `transcode src` is the outcome of the
blocking `ffmpeg` subprocess on `src` (`some size` for exit code 0 with an
output file of `size` bytes, `none` for a non-zero exit code); `unlinkOk p`
says whether `Path(p).unlink()` succeeds on an existing file; `moveOk` says
whether `shutil.move` succeeds; `tmpPath` is the private temporary file name
picked by `tempfile.NamedTemporaryFile`. -/
structure Env where
  connected : Bool
  ffmpegAvailable : Bool
  fs : FS
  transcode : String → Option Nat
  unlinkOk : String → Bool
  moveOk : Bool
  tmpPath : String

/-- Replace the filesystem component of an environment. -/
def Env.setFs (e : Env) (f : FS) : Env :=
  ⟨e.connected, e.ffmpegAvailable, f, e.transcode, e.unlinkOk, e.moveOk, e.tmpPath⟩

/-- The observable outcome of one `copy_episode` call: its boolean return
value, the resulting filesystem, and how many times the `ffmpeg` subprocess
was invoked. -/
structure CopyOutcome where
  ok : Bool
  fs : FS
  ffmpegRuns : Nat

/-- Removal of the temporary file by `tmp_path.unlink(missing_ok=True)`
inside a `try/except pass` (a failing unlink just leaves the file). -/
def cleanupTmp (env : Env) (fs : FS) : FS :=
  if env.unlinkOk env.tmpPath then setFile fs env.tmpPath none else fs

/-- The filesystem after the temp file is created (`NamedTemporaryFile`,
empty), `ffmpeg` writes `size` bytes into it, and `shutil.move` transfers it
onto the destination (temp file gone, destination written). -/
def moveResult (env : Env) (fs1 : FS) (size : Nat) (ep : PodcastEpisode) : FS :=
  setFile
    (setFile (setFile (setFile fs1 env.tmpPath (some 0)) env.tmpPath (some size))
      env.tmpPath none)
    (destPath ep) (some size)

/-- The tail of `DeviceManager.copy_episode` from the temporary-file creation
on: create the temp file, run `ffmpeg` (2x atempo, `-vn`, `-y`) into it, on
exit code 0 move it onto the destination, and verify that the destination
exists with non-zero size.  `fs1` is the filesystem after the
stale-destination removal step. -/
def transcodeAndMove (env : Env) (ep : PodcastEpisode) (fs1 : FS) : CopyOutcome :=
  match env.transcode ep.file_path with
  | none => ⟨false, cleanupTmp env (setFile fs1 env.tmpPath (some 0)), 1⟩
  | some size =>
    if env.moveOk = true then
      if existsNonzero (moveResult env fs1 size ep) (destPath ep) = true then
        ⟨true, moveResult env fs1 size ep, 1⟩
      else ⟨false, moveResult env fs1 size ep, 1⟩
    else
      ⟨false,
        cleanupTmp env (setFile (setFile fs1 env.tmpPath (some 0)) env.tmpPath (some size)),
        1⟩

/-- `DeviceManager.copy_episode`: device-connected check, `ffmpeg`
availability check, already-synced skip, source existence check, stale
(zero-size) destination removal, then transcode-and-move. -/
def copy_episode (env : Env) (ep : PodcastEpisode) : CopyOutcome :=
  if env.connected = false then ⟨false, env.fs, 0⟩
  else if env.ffmpegAvailable = false then ⟨false, env.fs, 0⟩
  else if existsNonzero env.fs (destPath ep) = true then ⟨true, env.fs, 0⟩
  else if env.fs ep.file_path = none then ⟨false, env.fs, 0⟩
  else if env.fs (destPath ep) = none then transcodeAndMove env ep env.fs
  else if env.unlinkOk (destPath ep) = true then
    transcodeAndMove env ep (setFile env.fs (destPath ep) none)
  else ⟨false, env.fs, 0⟩

/-- The copy loop of `PodcastSyncApp.apply_changes`: run `copy_episode` on
each episode in order, threading the filesystem, and record each boolean
result. -/
def copyBatch (env : Env) : List PodcastEpisode → List Bool × Env
  | [] => ([], env)
  | ep :: rest =>
    let out := copy_episode env ep
    let t := copyBatch (env.setFs out.fs) rest
    (out.ok :: t.1, t.2)

/-- `DeviceManager.delete_file`: `Path(path).unlink()`, reporting `False` on
any failure (missing file or refused deletion). -/
def delete_file (env : Env) (f : DeviceFile) : Bool × Env :=
  if ((env.fs f.path).isSome && env.unlinkOk f.path) = true then
    (true, env.setFs (setFile env.fs f.path none))
  else (false, env)

/-- The prune loop of `PodcastSyncApp.apply_changes`: for each scanned device
file not flagged keep, attempt deletion; count successful deletions.  The
third component records, in order, each attempted file with the success of
its deletion (an observation of the loop's actions). -/
def pruneFiles (env : Env) : List DeviceFile → Nat × Env × List (DeviceFile × Bool)
  | [] => (0, env, [])
  | f :: rest =>
    if f.keep = true then pruneFiles env rest
    else
      let r := delete_file env f
      let t := pruneFiles r.2 rest
      ((if r.1 then 1 else 0) + t.1, t.2.1, (f, r.1) :: t.2.2)

/-- `PodcastSyncApp.apply_changes`: copy every selected episode, then prune
the scanned device files; returns (copied count, deleted count, final
environment). -/
def apply_changes (env : Env) (episodes : List PodcastEpisode)
    (device_files : List DeviceFile) : Nat × Nat × Env :=
  let selected := episodes.filter (fun e => e.selected)
  let c := copyBatch env selected
  let copied := (c.1.filter (fun b => b)).length
  let d := pruneFiles c.2 device_files
  (copied, d.1, d.2.1)

-- ### Catalog reader (`PodcastLibrary.get_recent_podcasts`)

/-- One row of the `ZMTEPISODE`/`ZMTPODCAST` join read by the catalog query
(`ZTITLE`, podcast `ZTITLE`, `ZASSETURL`, `ZDOWNLOADDATE`, `ZLASTDATEPLAYED`).
`download_date` is in seconds since the Core Data reference date. -/
structure DBRow where
  episode_title : Option String
  podcast_title : Option String
  file_url : Option String
  download_date : Option Int
  last_played : Option Int
deriving DecidableEq

/-- The SQL `WHERE` clause: `ZASSETURL IS NOT NULL AND ZASSETURL != ''
AND ZDOWNLOADDATE IS NOT NULL`. -/
def sqlKeep (r : DBRow) : Bool :=
  match r.file_url with
  | some u => !(u == "") && r.download_date.isSome
  | none => false

/-- The sort key for `ORDER BY ZDOWNLOADDATE DESC` (rows passing `sqlKeep`
always have `some` here). -/
def dlKey (r : DBRow) : Int := r.download_date.getD 0

/-- Row ordering of the query result: descending download date. -/
def rowLe (a b : DBRow) : Prop := dlKey b ≤ dlKey a

instance : DecidableRel rowLe := fun a b => inferInstanceAs (Decidable (dlKey b ≤ dlKey a))

instance : IsTotal DBRow rowLe := ⟨fun a b => le_total (dlKey b) (dlKey a)⟩

instance : IsTrans DBRow rowLe := ⟨fun _ _ _ hab hbc => le_trans hbc hab⟩

/-- The rows produced by the SQL query: `WHERE`-filter, `ORDER BY
ZDOWNLOADDATE DESC`, `LIMIT ?`.  (SQLite leaves the relative order of
equal-key rows unspecified; the model uses a stable sort.) -/
def queryRows (db : List DBRow) (limit : Nat) : List DBRow :=
  (List.insertionSort rowLe (db.filter sqlKeep)).take limit

/-- Whether `pat` is an initial run of `cs` (model of `str.startswith`). -/
def leadMatch : List Char → List Char → Bool
  | [], _ => true
  | _ :: _, [] => false
  | p :: ps, c :: cs => p = c && leadMatch ps cs

/-- `s.startswith(pre)` on strings. -/
def strStartsWith (s pre : String) : Bool := leadMatch pre.data s.data

/-- Model of Python `str.replace(pat, rep)`: replace every (leftmost,
non-overlapping) occurrence of `pat`.  Structured with explicit fuel so the
definition is structurally recursive; `fuel = cs.length` always suffices
since a match consumes at least one character. -/
def replaceFuel (pat rep : List Char) : Nat → List Char → List Char
  | 0, cs => cs
  | _ + 1, [] => []
  | fuel + 1, c :: rest =>
    if (!pat.isEmpty && leadMatch pat (c :: rest)) = true then
      rep ++ replaceFuel pat rep fuel (rest.drop (pat.length - 1))
    else c :: replaceFuel pat rep fuel rest

/-- `s.replace(pat, rep)` on strings. -/
def strReplace (s pat rep : String) : String :=
  ⟨replaceFuel pat.data rep.data s.data.length s.data⟩

/-- Python `x or default` on an optional string: the default is used both
when the value is missing and when it is empty (falsy). -/
def pyOr (o : Option String) (d : String) : String :=
  match o with
  | some s => if s = "" then d else s
  | none => d

/-- The Core Data timestamp conversion in the row loop:
`datetime(2001,1,1) + timedelta(seconds=download_date) if download_date
else datetime.now()`.  In the seconds-since-2001 representation the sum is
just `d`; Python's `if download_date:` is false for `None` and for `0`. -/
def convertDownloadDate (dd : Option Int) (now : Int) : Int :=
  match dd with
  | some d => if d = 0 then now else d
  | none => now

/-- The body of the row loop in `get_recent_podcasts`: keep the row only if
its asset URL is a `file://` URL whose decoded path exists on disk, building
the `PodcastEpisode` for it.  `unquote` is `urllib.parse.unquote` and
`fileExists p` is `Path(p).exists()`. -/
def rowToEpisode (unquote : String → String) (fileExists : String → Bool)
    (now : Int) (r : DBRow) : Option PodcastEpisode :=
  match r.file_url with
  | none => none
  | some url =>
    if strStartsWith url "file://" = true then
      let file_path := unquote (strReplace url "file://" "")
      if fileExists file_path = true then
        some ⟨pyOr r.episode_title "Unknown Episode",
              pyOr r.podcast_title "Unknown Podcast",
              file_path, convertDownloadDate r.download_date now, false⟩
      else none
    else none

/-- The accumulation loop over the query rows (`episodes = []` followed by
conditional `episodes.append(...)`). -/
def buildEpisodes (unquote : String → String) (fileExists : String → Bool)
    (now : Int) (rows : List DBRow) : List PodcastEpisode :=
  rows.foldl
    (fun acc r =>
      match rowToEpisode unquote fileExists now r with
      | some e => acc ++ [e]
      | none => acc) []

/-- `PodcastLibrary.get_recent_podcasts(limit)`.  `dbFound` models
`self.db_path` being non-`None`. -/
def get_recent_podcasts (dbFound : Bool) (db : List DBRow)
    (unquote : String → String) (fileExists : String → Bool) (now : Int)
    (limit : Nat) : List PodcastEpisode :=
  if dbFound = false then []
  else buildEpisodes unquote fileExists now (queryRows db limit)

/-- Written from the claim's words, for comparison with the code: "returns
exactly the N most recently downloaded episodes whose asset file still
exists on disk (fewer only if the whole store holds fewer such episodes),
ordered by download timestamp descending" — i.e. the existence filter is
applied before the limit is taken. -/
def claimedGetRecent (db : List DBRow) (unquote : String → String)
    (fileExists : String → Bool) (now : Int) (limit : Nat) : List PodcastEpisode :=
  ((List.insertionSort rowLe
      (db.filter (fun r =>
        sqlKeep r && (rowToEpisode unquote fileExists now r).isSome))).take
    limit).filterMap (rowToEpisode unquote fileExists now)

-- ### Device scanner (`DeviceManager.get_device_files`)

/-- One entry yielded by `device_path.glob("**/*")`: its path relative to the
device root and whether it is a regular file. -/
structure FsEntry where
  rel : String
  isFile : Bool
deriving DecidableEq

/-- The fixed recognized audio extensions. -/
def audioExtensions : List String := [".mp3", ".m4a", ".aac", ".wav", ".flac"]

/-- `str.lower()` (ASCII, which covers the compared extensions). -/
def strLower (s : String) : String := ⟨s.data.map Char.toLower⟩

/-- `file_path.name.startswith(".")` for a scanned entry. -/
def entryHidden (e : FsEntry) : Bool :=
  match (pathNameChars e.rel.data).head? with
  | some c => c = '.'
  | none => false

/-- The filter in the scan loop: regular file, not a dotfile, recognized
audio extension (lower-cased). -/
def entryKept (e : FsEntry) : Bool :=
  e.isFile && !entryHidden e && audioExtensions.contains (strLower (pathSuffix e.rel))

/-- `DeviceFile(name=str(relative_path), path=str(file_path))` for a kept
entry. -/
def mkDeviceFile (e : FsEntry) : DeviceFile :=
  ⟨e.rel, devicePath ++ "/" ++ e.rel, false⟩

/-- The entries actually iterated: all of them, or — when a read error
interrupts the `try` block after `i` entries — only the first `i`. -/
def scannedEntries (listing : List FsEntry) (errAt : Option Nat) : List FsEntry :=
  match errAt with
  | some i => listing.take i
  | none => listing

/-- `DeviceManager.get_device_files()`: empty when the device is not
connected; otherwise the accumulation loop over the glob entries, cut short
at a read error. -/
def get_device_files (connected : Bool) (listing : List FsEntry)
    (errAt : Option Nat) : List DeviceFile :=
  if connected = false then []
  else
    (scannedEntries listing errAt).foldl
      (fun acc e => if entryKept e = true then acc ++ [mkDeviceFile e] else acc) []

-- ### Concrete inputs used by witnesses and counterexamples

/-- A title of 199 `a`s, a dot, and one more `a`: stripping leaves it
unchanged, and truncation to 200 then ends it on the dot. -/
def exTitleC2 : String := ⟨List.replicate 199 'a' ++ ['.', 'a']⟩

/-- The filename-sanitization property exactly as the claim states it: no
forbidden character, no leading or trailing space, no leading or trailing
dot, at most 200 characters. -/
def claimedSanitizeProp (title : String) : Prop :=
  (∀ c ∈ (sanitize_filename title).data, forbiddenChars.contains c = false)
  ∧ (∀ c, (sanitize_filename title).data.head? = some c → c ≠ ' ' ∧ c ≠ '.')
  ∧ (∀ c, (sanitize_filename title).data.getLast? = some c → c ≠ ' ' ∧ c ≠ '.')
  ∧ (sanitize_filename title).length ≤ 200

/-- The set of characters the claim for degenerate titles describes as
"removed by sanitization": the forbidden characters, spaces and dots. -/
def removedBySanitization (c : Char) : Bool :=
  forbiddenChars.contains c || c = ' ' || c = '.'

/-- An episode whose title is a single space and whose source path has no
extension. -/
def exEp10 : PodcastEpisode := ⟨" ", "P", "source", 0, false⟩

/-- An episode whose title consists only of forbidden characters, with an
extension-less source path. -/
def exEp10b : PodcastEpisode := ⟨"???", "P", "source", 0, false⟩

/-- An episode used by the copy-operation witnesses. -/
def exEp : PodcastEpisode := ⟨"Ep", "Show", "e.mp3", 0, true⟩

/-- A filesystem where only the destination of `exEp` exists (7 bytes). -/
def exFsC1 : FS := fun p => if p = "/Volumes/XTRAINERZ/Podcasts/Ep.mp3" then some 7 else none

/-- Device connected, ffmpeg available, destination already on the device,
source absent. -/
def exEnvC1 : Env := ⟨true, true, exFsC1, fun _ => none, fun _ => true, true, "/tmp/t"⟩

/-- An episode whose transcode will produce a zero-byte output. -/
def exEp7 : PodcastEpisode := ⟨"Vf", "Show", "src.mp3", 0, true⟩

/-- Source present; the transcoder exits 0 but writes 0 bytes. -/
def exEnvC7 : Env :=
  ⟨true, true, fun p => if p = "src.mp3" then some 10 else none,
   fun p => if p = "src.mp3" then some 0 else none, fun _ => true, true, "/tmp/t"⟩

/-- Three episodes for the batch-isolation scenario. -/
def exE1 : PodcastEpisode := ⟨"A", "S", "a.mp3", 0, true⟩

/-- Second episode of the batch: its source file will be missing. -/
def exE2 : PodcastEpisode := ⟨"B", "S", "b.mp3", 0, true⟩

/-- Third episode of the batch. -/
def exE3 : PodcastEpisode := ⟨"C", "S", "c.mp3", 0, true⟩

/-- Sources of the first and third episodes exist; `b.mp3` is missing. -/
def exEnv5 : Env :=
  ⟨true, true, fun p => if p = "a.mp3" || p = "c.mp3" then some 10 else none,
   fun p => if p = "a.mp3" || p = "c.mp3" then some 4 else none,
   fun _ => true, true, "/tmp/t"⟩

/-- Five scanned device files with the keep flag set on the second and
fourth. -/
def exFiles6 : List DeviceFile :=
  [⟨"f1", "p1", false⟩, ⟨"f2", "p2", true⟩, ⟨"f3", "p3", false⟩,
   ⟨"f4", "p4", true⟩, ⟨"f5", "p5", false⟩]

/-- All five device files exist and deletions succeed. -/
def exEnv6 : Env :=
  ⟨true, true,
   fun p => if p = "p1" || p = "p2" || p = "p3" || p = "p4" || p = "p5" then some 1 else none,
   fun _ => none, fun _ => true, true, "/tmp/t"⟩

/-- The most recently downloaded row; its asset file will be missing. -/
def exRowX : DBRow := ⟨some "EX", some "PX", some "file://x", some 2, none⟩

/-- An older row whose asset file exists. -/
def exRowY : DBRow := ⟨some "EY", some "PY", some "file://y", some 1, none⟩

/-- A two-row store. -/
def exDb : List DBRow := [exRowX, exRowY]

/-- Only the decoded path `y` exists on disk. -/
def exFileExists : String → Bool := fun p => p == "y"

/-- A device listing with a kept audio file, a dotfile, a non-audio file, a
directory, and an upper-case-extension audio file. -/
def exListing : List FsEntry :=
  [⟨"Podcasts/a.mp3", true⟩, ⟨".hidden.mp3", true⟩, ⟨"notes.txt", true⟩,
   ⟨"dir", false⟩, ⟨"B.M4A", true⟩]

-- ### Generic list lemmas used by the sanitization proofs

theorem mem_of_mem_dropWhile {p : Char → Bool} {c : Char} :
    ∀ {l : List Char}, c ∈ l.dropWhile p → c ∈ l := by
  intro l h
  induction l with
  | nil => simp [List.dropWhile] at h
  | cons a l ih =>
    by_cases ha : p a
    · simp only [List.dropWhile, ha] at h
      exact List.mem_cons_of_mem a (ih h)
    · simpa [List.dropWhile, ha] using h

theorem head?_dropWhile_not {p : Char → Bool} {c : Char} :
    ∀ {l : List Char}, (l.dropWhile p).head? = some c → p c = false := by
  intro l h
  induction l with
  | nil => simp [List.dropWhile] at h
  | cons a l ih =>
    by_cases ha : p a
    · simp only [List.dropWhile, ha] at h
      exact ih h
    · simp only [List.dropWhile, ha] at h
      simp only [List.head?, Option.some.injEq] at h
      subst h
      exact Bool.eq_false_iff.mpr ha

theorem getLast?_dropWhile {p : Char → Bool} :
    ∀ {l : List Char}, l.dropWhile p ≠ [] → (l.dropWhile p).getLast? = l.getLast? := by
  intro l h
  induction l with
  | nil => simp [List.dropWhile] at h
  | cons a l ih =>
    by_cases ha : p a
    · simp only [List.dropWhile, ha] at h ⊢
      rw [ih h]
      have hl : l ≠ [] := by
        intro hnil
        exact h (by simp [hnil, List.dropWhile])
      cases l with
      | nil => exact absurd rfl hl
      | cons b m => simp [List.getLast?_cons_cons]
    · simp [List.dropWhile, ha]

theorem head?_take200 : ∀ (l : List Char), (l.take 200).head? = l.head? := by
  intro l
  cases l with
  | nil => rfl
  | cons a l => rfl

-- ### Facts about stripDots

theorem stripDots_subset {c : Char} {l : List Char} (h : c ∈ stripDots l) : c ∈ l := by
  unfold stripDots at h
  rw [List.mem_reverse] at h
  have h1 := mem_of_mem_dropWhile h
  rw [List.mem_reverse] at h1
  exact mem_of_mem_dropWhile h1

theorem stripDots_head {c : Char} {l : List Char}
    (h : (stripDots l).head? = some c) : isStripChar c = false := by
  unfold stripDots at h
  rw [List.head?_reverse] at h
  have hne : (l.dropWhile isStripChar).reverse.dropWhile isStripChar ≠ [] := by
    intro hnil
    rw [hnil] at h
    simp at h
  rw [getLast?_dropWhile hne, List.getLast?_reverse] at h
  exact head?_dropWhile_not h

theorem stripDots_getLast {c : Char} {l : List Char}
    (h : (stripDots l).getLast? = some c) : isStripChar c = false := by
  unfold stripDots at h
  rw [List.getLast?_reverse] at h
  exact head?_dropWhile_not h

-- ### Helper facts about sanitization and suffixes

theorem forbidden_ne_space {c : Char} (h : c ∈ forbiddenChars) : c ≠ ' ' := by
  fin_cases h <;> decide

theorem mem_sanitizeChars {c : Char} {cs : List Char} (h : c ∈ sanitizeChars cs) :
    forbiddenChars.contains c = false ∧ c ≠ ' ' := by
  unfold sanitizeChars at h
  have h1 := stripDots_subset (List.take_subset 200 _ h)
  have h2 := List.mem_filter.mp h1
  refine ⟨by simpa using h2.2, ?_⟩
  obtain ⟨a, _, ha⟩ := List.mem_map.mp h2.1
  by_cases has : a = ' '
  · rw [if_pos has] at ha
    rw [← ha]
    decide
  · rw [if_neg has] at ha
    rw [← ha]
    exact has

theorem lastDotIdx_get {cs : List Char} {i : Nat} (h : lastDotIdx cs = some i) :
    cs[i]? = some '.' := by
  induction cs generalizing i with
  | nil => simp [lastDotIdx] at h
  | cons c rest ih =>
    unfold lastDotIdx at h
    cases hr : lastDotIdx rest with
    | some j =>
      rw [hr] at h
      simp only [Option.some.injEq] at h
      subst h
      simpa using ih hr
    | none =>
      rw [hr] at h
      by_cases hc : c = '.'
      · rw [if_pos hc] at h
        simp only [Option.some.injEq] at h
        subst h
        simp [hc]
      · rw [if_neg hc] at h
        exact absurd h (by simp)

theorem pathSuffixChars_head (cs : List Char) :
    pathSuffixChars cs = [] ∨ (pathSuffixChars cs).head? = some '.' := by
  unfold pathSuffixChars
  split
  next i hd =>
    split
    · right
      rw [List.head?_drop]
      exact lastDotIdx_get hd
    · left; rfl
  next => left; rfl

theorem pathSuffix_head (p : String) :
    pathSuffix p = "" ∨ (pathSuffix p).data.head? = some '.' := by
  rcases pathSuffixChars_head p.data with h | h
  · left
    show (⟨pathSuffixChars p.data⟩ : String) = ""
    rw [h]
  · right
    exact h

/-- C2 (amended (a) and restated (b)): helper — the sanitized title as a
character list. -/
theorem sanitizeChars_props (cs : List Char) :
    (∀ c, (sanitizeChars cs).head? = some c → isStripChar c = false)
    ∧ (sanitizeChars cs).length ≤ 200
    ∧ ((stripDots ((cs.map (fun c => if c = ' ' then '_' else c)).filter
          (fun c => !(forbiddenChars.contains c)))).length ≤ 200 →
        ∀ c, (sanitizeChars cs).getLast? = some c → isStripChar c = false) := by
  refine ⟨?_, ?_, ?_⟩
  · intro c h
    unfold sanitizeChars at h
    rw [head?_take200] at h
    exact stripDots_head h
  · unfold sanitizeChars
    rw [List.length_take]
    exact min_le_left _ _
  · intro hlen c h
    unfold sanitizeChars at h
    rw [List.take_of_length_le hlen] at h
    exact stripDots_getLast h

theorem empty_append_str (s : String) : "" ++ s = s := by
  cases s
  rfl

theorem sanitizeChars_nil_of_removed {cs : List Char}
    (h : ∀ c ∈ cs, forbiddenChars.contains c = true ∨ c = '.') :
    sanitizeChars cs = [] := by
  unfold sanitizeChars
  have hmap : cs.map (fun c => if c = ' ' then '_' else c) = cs := by
    have hne : ∀ a ∈ cs, (if a = ' ' then '_' else a) = id a := by
      intro a ha
      rcases h a ha with hf | hd
      · rw [if_neg (forbidden_ne_space (by simpa using hf))]
        rfl
      · rw [if_neg (by rw [hd]; decide)]
        rfl
    rw [List.map_congr_left hne, List.map_id]
  rw [hmap]
  have hall : ∀ c ∈ cs.filter (fun c => !(forbiddenChars.contains c)),
      isStripChar c = true := by
    intro c hc
    have h2 := List.mem_filter.mp hc
    rcases h c h2.1 with hf | hd
    · rw [hf] at h2
      simp at h2
    · rw [hd]
      decide
  unfold stripDots
  rw [List.dropWhile_eq_nil_iff.mpr hall]
  rfl

-- ### C2: filename sanitization

/-- C2 counterexample: for the 201-character title `aaa…a.a` (199 `a`s, a
dot, an `a`), the sanitized name is 199 `a`s followed by a dot — the
truncation to 200 characters, applied after the strip, re-introduces a
trailing dot, so the claimed property fails on this title. -/
theorem sanitize_filename_claim_cex : ¬ claimedSanitizeProp exTitleC2 := by
  intro h
  exact (h.2.2.1 '.' (by decide)).2 rfl

/-- C2 (amended): for every input title, the sanitized title part contains
no forbidden character and no space at all, does not begin with a space or a
dot, and is at most 200 characters; moreover, whenever the stripped string
already fits within the 200-character cap, it does not end with a space or a
dot either.  (When the stripped string is longer than 200 characters the
truncation can leave a trailing dot, as the counterexample shows.) -/
theorem sanitize_filename_amended (title : String) :
    (∀ c ∈ (sanitize_filename title).data,
        forbiddenChars.contains c = false ∧ c ≠ ' ')
    ∧ (∀ c, (sanitize_filename title).data.head? = some c → isStripChar c = false)
    ∧ (sanitize_filename title).length ≤ 200
    ∧ ((stripDots ((title.data.map (fun c => if c = ' ' then '_' else c)).filter
          (fun c => !(forbiddenChars.contains c)))).length ≤ 200 →
        ∀ c, (sanitize_filename title).data.getLast? = some c → isStripChar c = false) := by
  have h := sanitizeChars_props title.data
  exact ⟨fun _ hc => mem_sanitizeChars hc, h.1, h.2.1, h.2.2⟩

/-- C2 witness: the amended theorem applied to the title `"ab."`, whose
stripped form fits the cap, so its last character is not a dot. -/
theorem sanitize_filename_amended_witness :
    sanitize_filename "ab." = "ab" ∧ isStripChar 'b' = false :=
  ⟨by decide, (sanitize_filename_amended "ab.").2.2.2 (by decide) 'b' (by decide)⟩

-- ### C10: degenerate titles

/-- C10 counterexample: the title `" "` consists only of characters the
claim describes as removed by sanitization, yet the space is replaced by an
underscore before stripping, so the filename is `"_.mp3"`, not the bare
extension, and it does not begin with a dot. -/
theorem filename_degenerate_cex :
    (∀ c ∈ (" " : String).data, removedBySanitization c = true)
    ∧ PodcastEpisode.filename exEp10 = "_.mp3"
    ∧ PodcastEpisode.filename exEp10 ≠ ".mp3"
    ∧ ¬ (PodcastEpisode.filename exEp10).data.head? = some '.' :=
  ⟨by decide, by decide, by decide, by decide⟩

/-- C10 (amended): for every episode whose title consists only of forbidden
characters and dots (spaces excluded: a space is replaced by an underscore
before stripping, so it never vanishes), the filename is exactly the
extension — the source path's suffix, or `".mp3"` when the path has none —
hence non-empty and beginning with a dot. -/
theorem filename_degenerate (ep : PodcastEpisode)
    (h : ∀ c ∈ ep.title.data, forbiddenChars.contains c = true ∨ c = '.') :
    ep.filename = (if pathSuffix ep.file_path = "" then ".mp3" else pathSuffix ep.file_path)
    ∧ ep.filename ≠ "" ∧ ep.filename.data.head? = some '.' := by
  have hsan : sanitize_filename ep.title = "" := by
    show (⟨sanitizeChars ep.title.data⟩ : String) = ""
    rw [sanitizeChars_nil_of_removed h]
  have hfn : ep.filename
      = (if pathSuffix ep.file_path = "" then ".mp3" else pathSuffix ep.file_path) := by
    unfold PodcastEpisode.filename
    rw [hsan]
    exact empty_append_str _
  refine ⟨hfn, ?_, ?_⟩
  · rw [hfn]
    by_cases hsuf : pathSuffix ep.file_path = ""
    · rw [if_pos hsuf]
      decide
    · rw [if_neg hsuf]
      exact hsuf
  · rw [hfn]
    by_cases hsuf : pathSuffix ep.file_path = ""
    · rw [if_pos hsuf]
      decide
    · rw [if_neg hsuf]
      rcases pathSuffix_head ep.file_path with h' | h'
      · exact absurd h' hsuf
      · exact h'

/-- C10 witness: the amended theorem applied to the all-question-marks title
with an extension-less source path yields the filename `".mp3"`. -/
theorem filename_degenerate_witness :
    PodcastEpisode.filename exEp10b = ".mp3" ∧ PodcastEpisode.filename exEp10b ≠ "" := by
  have h := filename_degenerate exEp10b (by decide)
  refine ⟨?_, h.2.1⟩
  rw [h.1]
  decide

-- ### Helper facts about copy_episode

theorem existsNonzero_iff {fs : FS} {p : String} :
    existsNonzero fs p = true ↔ ∃ s, fs p = some s ∧ 0 < s := by
  unfold existsNonzero
  cases h : fs p with
  | none => simp
  | some s => simp

theorem moveResult_dest (env : Env) (fs1 : FS) (size : Nat) (ep : PodcastEpisode) :
    moveResult env fs1 size ep (destPath ep) = some size := by
  unfold moveResult setFile
  simp

theorem copy_skip {env : Env} {ep : PodcastEpisode}
    (hc : env.connected = true) (hf : env.ffmpegAvailable = true)
    (hd : existsNonzero env.fs (destPath ep) = true) :
    copy_episode env ep = ⟨true, env.fs, 0⟩ := by
  unfold copy_episode
  rw [hc, hf, hd]
  simp

theorem transcodeAndMove_success_dest {env : Env} {ep : PodcastEpisode} {fs1 : FS}
    (h : (transcodeAndMove env ep fs1).ok = true) :
    ∃ s, (transcodeAndMove env ep fs1).fs (destPath ep) = some s ∧ 0 < s := by
  unfold transcodeAndMove at h ⊢
  cases htr : env.transcode ep.file_path with
  | none =>
    rw [htr] at h
    simp at h
  | some size =>
    rw [htr] at h
    dsimp only at h ⊢
    by_cases hm : env.moveOk = true
    · rw [if_pos hm] at h ⊢
      by_cases hex : existsNonzero (moveResult env fs1 size ep) (destPath ep) = true
      · rw [if_pos hex]
        exact existsNonzero_iff.mp hex
      · rw [if_neg hex] at h
        simp at h
    · rw [if_neg hm] at h
      simp at h

theorem copy_success_dest {env : Env} {ep : PodcastEpisode}
    (h : (copy_episode env ep).ok = true) :
    ∃ s, (copy_episode env ep).fs (destPath ep) = some s ∧ 0 < s := by
  unfold copy_episode at h ⊢
  by_cases h1 : env.connected = false
  · rw [if_pos h1] at h
    simp at h
  · rw [if_neg h1] at h ⊢
    by_cases h2 : env.ffmpegAvailable = false
    · rw [if_pos h2] at h
      simp at h
    · rw [if_neg h2] at h ⊢
      by_cases h3 : existsNonzero env.fs (destPath ep) = true
      · rw [if_pos h3] at h ⊢
        exact existsNonzero_iff.mp h3
      · rw [if_neg h3] at h ⊢
        by_cases h4 : env.fs ep.file_path = none
        · rw [if_pos h4] at h
          simp at h
        · rw [if_neg h4] at h ⊢
          by_cases h5 : env.fs (destPath ep) = none
          · rw [if_pos h5] at h ⊢
            exact transcodeAndMove_success_dest h
          · rw [if_neg h5] at h ⊢
            by_cases h6 : env.unlinkOk (destPath ep) = true
            · rw [if_pos h6] at h ⊢
              exact transcodeAndMove_success_dest h
            · rw [if_neg h6] at h
              simp at h

-- ### C1: idempotence of copy_episode

/-- C1: when the device is connected and ffmpeg is available, an episode
whose destination file already exists on the device with non-zero size is
reported as success with the filesystem untouched and zero transcoder
invocations; and after any successful `copy_episode` the destination exists
with non-zero size and a second call is exactly such a no-op success. -/
theorem copy_episode_idempotent (env : Env) (ep : PodcastEpisode)
    (hc : env.connected = true) (hf : env.ffmpegAvailable = true) :
    (∀ s, env.fs (destPath ep) = some s → 0 < s →
        copy_episode env ep = ⟨true, env.fs, 0⟩)
    ∧ ((copy_episode env ep).ok = true →
        (∃ s, (copy_episode env ep).fs (destPath ep) = some s ∧ 0 < s)
        ∧ copy_episode (env.setFs (copy_episode env ep).fs) ep
            = ⟨true, (copy_episode env ep).fs, 0⟩) := by
  constructor
  · intro s hs hpos
    exact copy_skip hc hf (existsNonzero_iff.mpr ⟨s, hs, hpos⟩)
  · intro hok
    obtain ⟨s, hs, hpos⟩ := copy_success_dest hok
    exact ⟨⟨s, hs, hpos⟩, copy_skip hc hf (existsNonzero_iff.mpr ⟨s, hs, hpos⟩)⟩

/-- C1 witness: with the destination already present (7 bytes), the call
reports success, leaves the filesystem unchanged and never runs ffmpeg. -/
theorem copy_episode_idempotent_witness :
    copy_episode exEnvC1 exEp = ⟨true, exEnvC1.fs, 0⟩ :=
  (copy_episode_idempotent exEnvC1 exEp rfl rfl).1 7 (by decide) (by decide)

-- ### C9: the skip check precedes the source check

/-- C9: when the device is connected and ffmpeg is available, an episode
whose destination already exists with non-zero size succeeds even though its
source file is missing — the source-missing error is never reached. -/
theorem copy_skip_precedes_source (env : Env) (ep : PodcastEpisode)
    (hc : env.connected = true) (hf : env.ffmpegAvailable = true)
    (s : Nat) (hd : env.fs (destPath ep) = some s) (hpos : 0 < s)
    (_hsrc : env.fs ep.file_path = none) :
    copy_episode env ep = ⟨true, env.fs, 0⟩ :=
  copy_skip hc hf (existsNonzero_iff.mpr ⟨s, hd, hpos⟩)

/-- C9 witness: in `exEnvC1` the source `e.mp3` does not exist while the
destination does; the call still succeeds. -/
theorem copy_skip_precedes_source_witness :
    exEnvC1.fs exEp.file_path = none
    ∧ copy_episode exEnvC1 exEp = ⟨true, exEnvC1.fs, 0⟩ :=
  ⟨by decide,
   copy_skip_precedes_source exEnvC1 exEp rfl rfl 7 (by decide) (by decide) (by decide)⟩

-- ### C7: post-move verification

theorem existsNonzero_some {fs : FS} {p : String} {t : Nat} (h : fs p = some t) :
    existsNonzero fs p = decide (0 < t) := by
  unfold existsNonzero
  rw [h]

/-- C7: for an episode that reaches the transcode step (device connected,
ffmpeg available, destination not already synced, source present, a stale
destination removable) whose transcode subprocess reports success writing
`s` bytes and whose move succeeds, the destination afterwards holds exactly
`s` bytes, the call succeeds exactly when `s` is non-zero, and in particular
if the destination is absent or zero-sized after the move the call reports
failure, never success. -/
theorem copy_episode_verification (env : Env) (ep : PodcastEpisode)
    (hc : env.connected = true) (hf : env.ffmpegAvailable = true)
    (hskip : existsNonzero env.fs (destPath ep) = false)
    (hsrc : env.fs ep.file_path ≠ none)
    (hunl : env.unlinkOk (destPath ep) = true)
    (s : Nat) (htr : env.transcode ep.file_path = some s)
    (hmv : env.moveOk = true) :
    (copy_episode env ep).fs (destPath ep) = some s
    ∧ ((copy_episode env ep).ok = true ↔ 0 < s)
    ∧ (((copy_episode env ep).fs (destPath ep) = none
        ∨ (copy_episode env ep).fs (destPath ep) = some 0)
        → (copy_episode env ep).ok = false) := by
  have h1 : ¬env.connected = false := by rw [hc]; simp
  have h2 : ¬env.ffmpegAvailable = false := by rw [hf]; simp
  have h3 : ¬existsNonzero env.fs (destPath ep) = true := by rw [hskip]; simp
  have hred : copy_episode env ep =
      (if env.fs (destPath ep) = none then transcodeAndMove env ep env.fs
       else transcodeAndMove env ep (setFile env.fs (destPath ep) none)) := by
    unfold copy_episode
    rw [if_neg h1, if_neg h2, if_neg h3, if_neg hsrc]
    by_cases h5 : env.fs (destPath ep) = none
    · rw [if_pos h5, if_pos h5]
    · rw [if_neg h5, if_neg h5, if_pos hunl]
  have key : ∀ fs1 : FS,
      (transcodeAndMove env ep fs1).fs (destPath ep) = some s
      ∧ ((transcodeAndMove env ep fs1).ok = true ↔ 0 < s)
      ∧ (((transcodeAndMove env ep fs1).fs (destPath ep) = none
          ∨ (transcodeAndMove env ep fs1).fs (destPath ep) = some 0)
          → (transcodeAndMove env ep fs1).ok = false) := by
    intro fs1
    have hdest := moveResult_dest env fs1 s ep
    have hout : transcodeAndMove env ep fs1 =
        (if existsNonzero (moveResult env fs1 s ep) (destPath ep) = true then
          ⟨true, moveResult env fs1 s ep, 1⟩
        else ⟨false, moveResult env fs1 s ep, 1⟩) := by
      unfold transcodeAndMove
      rw [htr]
      dsimp only
      rw [if_pos hmv]
    rw [hout]
    by_cases hex : existsNonzero (moveResult env fs1 s ep) (destPath ep) = true
    · rw [if_pos hex]
      have hpos : 0 < s := by
        rw [existsNonzero_some hdest] at hex
        exact of_decide_eq_true hex
      refine ⟨hdest, ⟨fun _ => hpos, fun _ => rfl⟩, ?_⟩
      intro hd
      rcases hd with h0 | h0
      · have h0' : moveResult env fs1 s ep (destPath ep) = none := h0
        rw [hdest] at h0'
        cases h0'
      · have h0' : moveResult env fs1 s ep (destPath ep) = some 0 := h0
        rw [hdest] at h0'
        have : s = 0 := by simpa using h0'
        omega
    · rw [if_neg hex]
      have hnpos : ¬0 < s := by
        rw [existsNonzero_some hdest] at hex
        simpa using hex
      exact ⟨hdest, ⟨fun habs => absurd habs Bool.false_ne_true,
        fun hpos => absurd hpos hnpos⟩, fun _ => rfl⟩
  rw [hred]
  by_cases h5 : env.fs (destPath ep) = none
  · rw [if_pos h5]
    exact key env.fs
  · rw [if_neg h5]
    exact key (setFile env.fs (destPath ep) none)

/-- C7 witness: the transcoder exits 0 but writes 0 bytes; after the move the
destination is zero-sized and the call reports failure. -/
theorem copy_episode_verification_witness :
    (copy_episode exEnvC7 exEp7).ok = false
    ∧ (copy_episode exEnvC7 exEp7).fs (destPath exEp7) = some 0 := by
  have h := copy_episode_verification exEnvC7 exEp7 rfl rfl (by decide) (by decide)
    rfl 0 (by decide) rfl
  exact ⟨h.2.2 (Or.inr h.1), h.1⟩

-- ### C4: Core Data epoch conversion

/-- C4: the conversion maps a stored timestamp of 86400 to one day after the
reference date (86400 seconds since 2001-01-01T00:00:00, i.e.
2001-01-02T00:00:00), but a stored timestamp of 0 is falsy in Python's
`if download_date:`, so the code assigns `datetime.now()` instead of the
reference date 2001-01-01T00:00:00: whenever the current time is not the
reference instant, the converted value is not the reference date. -/
theorem convert_zero_timestamp_bug (now : Int) :
    convertDownloadDate (some 86400) now = 86400
    ∧ convertDownloadDate (some 0) now = now
    ∧ (now ≠ 0 → convertDownloadDate (some 0) now ≠ 0) := by
  refine ⟨by simp [convertDownloadDate], by simp [convertDownloadDate], ?_⟩
  intro h
  simpa [convertDownloadDate] using h

/-- C4 witness: at a current time of 5 seconds past the reference date, a
stored timestamp of 0 converts to the current time, not the reference
date. -/
theorem convert_zero_timestamp_bug_witness :
    convertDownloadDate (some 0) 5 = 5 ∧ convertDownloadDate (some 0) 5 ≠ 0 :=
  ⟨(convert_zero_timestamp_bug 5).2.1, (convert_zero_timestamp_bug 5).2.2 (by decide)⟩

-- ### C5: batch isolation

theorem copyBatch_append (env : Env) (xs ys : List PodcastEpisode) :
    copyBatch env (xs ++ ys)
      = ((copyBatch env xs).1 ++ (copyBatch (copyBatch env xs).2 ys).1,
         (copyBatch (copyBatch env xs).2 ys).2) := by
  induction xs generalizing env with
  | nil => simp [copyBatch]
  | cons ep rest ih =>
    show copyBatch env (ep :: (rest ++ ys)) = _
    simp only [copyBatch]
    rw [ih]
    rfl

theorem copyBatch_env (env : Env) (l : List PodcastEpisode) :
    (copyBatch env l).2 = env.setFs ((copyBatch env l).2).fs := by
  induction l generalizing env with
  | nil => rfl
  | cons ep rest ih =>
    simp only [copyBatch]
    exact ih (env.setFs (copy_episode env ep).fs)

/-- C5: in a batch run over `xs ++ ep :: ys` (device connected, ffmpeg
available), if when `ep`'s turn comes its source file is missing and its
destination is not already present with non-zero size, then `ep` alone
fails — its result is `false`, the filesystem is untouched by it, and the
remaining episodes `ys` are processed exactly as if `ep` had not been
there, after all of `xs` was processed normally. -/
theorem copyBatch_isolates_missing_source (env : Env)
    (xs ys : List PodcastEpisode) (ep : PodcastEpisode)
    (hc : env.connected = true) (hf : env.ffmpegAvailable = true)
    (hsrc : ((copyBatch env xs).2).fs ep.file_path = none)
    (hdst : existsNonzero ((copyBatch env xs).2).fs (destPath ep) = false) :
    copyBatch env (xs ++ ep :: ys)
      = ((copyBatch env xs).1 ++ false :: (copyBatch (copyBatch env xs).2 ys).1,
         (copyBatch (copyBatch env xs).2 ys).2) := by
  have henv := copyBatch_env env xs
  have hc1 : ((copyBatch env xs).2).connected = true := by rw [henv]; exact hc
  have hf1 : ((copyBatch env xs).2).ffmpegAvailable = true := by rw [henv]; exact hf
  have hmid : copy_episode (copyBatch env xs).2 ep
      = ⟨false, ((copyBatch env xs).2).fs, 0⟩ := by
    unfold copy_episode
    rw [hc1, hf1, hdst, hsrc]
    simp
  rw [copyBatch_append]
  simp only [copyBatch]
  rw [hmid]
  rfl

/-- C5 witness: three episodes, the second's source deliberately missing;
the results are success, source-missing failure, success. -/
theorem copyBatch_isolates_missing_source_witness :
    (copyBatch exEnv5 ([exE1] ++ exE2 :: [exE3])).1 = [true, false, true] := by
  rw [copyBatch_isolates_missing_source exEnv5 [exE1] [exE3] exE2 rfl rfl
    (by decide) (by decide)]
  decide

-- ### C6: pruning

theorem delete_file_other {env : Env} {f : DeviceFile} {q : String}
    (hq : f.path ≠ q) : ((delete_file env f).2).fs q = env.fs q := by
  unfold delete_file
  by_cases h : ((env.fs f.path).isSome && env.unlinkOk f.path) = true
  · rw [if_pos h]
    show setFile env.fs f.path none q = env.fs q
    unfold setFile
    rw [if_neg (fun hh => hq hh.symm)]
  · rw [if_neg h]

theorem delete_file_unlink (env : Env) (f : DeviceFile) :
    ((delete_file env f).2).unlinkOk = env.unlinkOk := by
  unfold delete_file
  by_cases h : ((env.fs f.path).isSome && env.unlinkOk f.path) = true
  · rw [if_pos h]
    rfl
  · rw [if_neg h]


theorem pruneFiles_untouched {q : String} :
    ∀ (files : List DeviceFile) (env : Env),
      (∀ f ∈ files, f.keep = false → f.path ≠ q) →
      ((pruneFiles env files).2.1).fs q = env.fs q := by
  intro files
  induction files with
  | nil => intro env _; rfl
  | cons f rest ih =>
    intro env h
    by_cases hk : f.keep = true
    · simp only [pruneFiles, if_pos hk]
      exact ih env (fun g hg => h g (List.mem_cons_of_mem f hg))
    · simp only [pruneFiles, if_neg hk]
      rw [ih (delete_file env f).2 (fun g hg => h g (List.mem_cons_of_mem f hg))]
      exact delete_file_other
        (h f (List.mem_cons_self f rest) (by simpa using hk))

theorem pruneFiles_deleted :
    ∀ (files : List DeviceFile) (env : Env),
      List.Pairwise (fun a b => a.path ≠ b.path) files →
      ∀ f ∈ files, f.keep = false → env.unlinkOk f.path = true →
        (env.fs f.path).isSome = true →
        ((pruneFiles env files).2.1).fs f.path = none := by
  intro files
  induction files with
  | nil =>
    intro env _ f hf
    cases hf
  | cons g rest ih =>
    intro env hpw f hf hkeep hunl hsome
    rcases List.pairwise_cons.mp hpw with ⟨hg, hrest⟩
    rcases List.mem_cons.mp hf with rfl | hmem
    · simp only [pruneFiles, if_neg (by rw [hkeep]; simp : ¬f.keep = true)]
      have hdel : delete_file env f = (true, env.setFs (setFile env.fs f.path none)) := by
        unfold delete_file
        rw [if_pos (by rw [hsome, hunl]; rfl)]
      rw [hdel]
      rw [pruneFiles_untouched rest _ (fun g' hg' _ => Ne.symm (hg g' hg'))]
      show setFile env.fs f.path none f.path = none
      simp [setFile]
    · by_cases hk : g.keep = true
      · simp only [pruneFiles, if_pos hk]
        exact ih env hrest f hmem hkeep hunl hsome
      · simp only [pruneFiles, if_neg hk]
        apply ih (delete_file env g).2 hrest f hmem hkeep
        · rw [delete_file_unlink]
          exact hunl
        · rw [delete_file_other (hg f hmem)]
          exact hsome

theorem pruneFiles_log :
    ∀ (files : List DeviceFile) (env : Env),
      (pruneFiles env files).2.2.map Prod.fst = files.filter (fun f => f.keep = false)
      ∧ (pruneFiles env files).1
          = ((pruneFiles env files).2.2.filter (fun e => e.2 = true)).length := by
  intro files
  induction files with
  | nil => intro env; exact ⟨rfl, rfl⟩
  | cons f rest ih =>
    intro env
    by_cases hk : f.keep = true
    · simp only [pruneFiles, if_pos hk]
      refine ⟨?_, (ih env).2⟩
      rw [(ih env).1, List.filter_cons]
      simp [hk]
    · have hk' : f.keep = false := by simpa using hk
      simp only [pruneFiles, if_neg hk]
      constructor
      · show _ :: (pruneFiles (delete_file env f).2 rest).2.2.map Prod.fst = _
        rw [(ih (delete_file env f).2).1, List.filter_cons]
        simp [hk']
      · cases hd : (delete_file env f).1 with
        | false =>
          rw [(ih (delete_file env f).2).2, List.filter_cons]
          simp
        | true =>
          rw [(ih (delete_file env f).2).2, List.filter_cons]
          simp [Nat.add_comm]

/-- C6: the prune loop attempts deletion of exactly the scanned files whose
keep flag is false (in order), the returned count equals the number of
successful deletions among those attempts, files flagged keep are never
deleted (their filesystem entry is untouched, given the scan yields distinct
paths), and an unflagged existing file whose deletion is permitted is
removed even when other deletions fail — no failure halts the loop. -/
theorem pruneFiles_contract (env : Env) (files : List DeviceFile)
    (hnd : List.Pairwise (fun a b => a.path ≠ b.path) files) :
    (pruneFiles env files).2.2.map Prod.fst = files.filter (fun f => f.keep = false)
    ∧ (pruneFiles env files).1
        = ((pruneFiles env files).2.2.filter (fun e => e.2 = true)).length
    ∧ (∀ f ∈ files, f.keep = true →
        ((pruneFiles env files).2.1).fs f.path = env.fs f.path)
    ∧ (∀ f ∈ files, f.keep = false → env.unlinkOk f.path = true →
        (env.fs f.path).isSome = true →
        ((pruneFiles env files).2.1).fs f.path = none) := by
  refine ⟨(pruneFiles_log files env).1, (pruneFiles_log files env).2, ?_, ?_⟩
  · intro f hf hk
    apply pruneFiles_untouched
    intro g hg hgk
    have hne : g ≠ f := by
      intro he
      rw [he, hk] at hgk
      cases hgk
    exact List.Pairwise.forall (fun _ _ h => Ne.symm h) hnd hg hf hne
  · intro f hf hk hunl hsome
    exact pruneFiles_deleted files env hnd f hf hk hunl hsome

/-- C6 witness: five scanned files with keep set on the second and fourth;
the count is 3, the kept `p2` survives, the unmarked `p1` is deleted. -/
theorem pruneFiles_contract_witness :
    (pruneFiles exEnv6 exFiles6).1 = 3
    ∧ ((pruneFiles exEnv6 exFiles6).2.1).fs "p2" = exEnv6.fs "p2"
    ∧ ((pruneFiles exEnv6 exFiles6).2.1).fs "p1" = none := by
  have h := pruneFiles_contract exEnv6 exFiles6 (by decide)
  refine ⟨?_, h.2.2.1 ⟨"f2", "p2", true⟩ (by decide) rfl,
    h.2.2.2 ⟨"f1", "p1", false⟩ (by decide) rfl rfl (by decide)⟩
  rw [h.2.1]
  decide

-- ### C3: catalog reader

theorem buildLoop_eq (unquote : String → String) (fileExists : String → Bool)
    (now : Int) :
    ∀ (rows : List DBRow) (acc : List PodcastEpisode),
      rows.foldl
        (fun acc r =>
          match rowToEpisode unquote fileExists now r with
          | some e => acc ++ [e]
          | none => acc) acc
        = acc ++ rows.filterMap (rowToEpisode unquote fileExists now) := by
  intro rows
  induction rows with
  | nil =>
    intro acc
    simp
  | cons r rest ih =>
    intro acc
    rw [List.foldl_cons]
    cases hx : rowToEpisode unquote fileExists now r with
    | none => simp [hx, ih, List.filterMap_cons]
    | some e => simp [hx, ih, List.filterMap_cons]

theorem buildEpisodes_eq (unquote : String → String) (fileExists : String → Bool)
    (now : Int) (rows : List DBRow) :
    buildEpisodes unquote fileExists now rows
      = rows.filterMap (rowToEpisode unquote fileExists now) := by
  unfold buildEpisodes
  rw [buildLoop_eq]
  simp

/-- C3 counterexample: a two-row store where the most recent row's asset
file is missing while the older row's file exists.  With N = 1 the code
returns no episodes — the `LIMIT` is applied before the existence filter, so
the missing file is not replaced by the older episode — whereas the claimed
behaviour (filter before limit, `claimedGetRecent`) returns the one episode
whose file exists. -/
theorem get_recent_podcasts_claim_cex :
    get_recent_podcasts true exDb (fun s => s) exFileExists 0 1 = []
    ∧ (claimedGetRecent exDb (fun s => s) exFileExists 0 1).length = 1 := by
  constructor
  · decide
  · decide

/-- C3 (amended): the catalog reader returns, from among only the N most
recently downloaded rows (non-null and non-empty asset URL, non-null
download date, ordered by download date descending), the episodes whose
decoded `file://` asset exists on disk, in that order; the row list is
sorted by download date descending, at most N episodes are returned, and a
row whose asset file is missing is skipped (maps to no episode) without
failing the query — but it is not replaced by an older row, so fewer than N
may be returned even when the store holds N episodes with existing files. -/
theorem get_recent_podcasts_amended (dbFound : Bool) (db : List DBRow)
    (unquote : String → String) (fileExists : String → Bool) (now : Int)
    (limit : Nat) (h : dbFound = true) :
    get_recent_podcasts dbFound db unquote fileExists now limit
      = (queryRows db limit).filterMap (rowToEpisode unquote fileExists now)
    ∧ List.Sorted rowLe (queryRows db limit)
    ∧ (get_recent_podcasts dbFound db unquote fileExists now limit).length ≤ limit
    ∧ (∀ r ∈ queryRows db limit, ∀ url, r.file_url = some url →
        strStartsWith url "file://" = true →
        fileExists (unquote (strReplace url "file://" "")) = false →
        rowToEpisode unquote fileExists now r = none) := by
  have hget : get_recent_podcasts dbFound db unquote fileExists now limit
      = (queryRows db limit).filterMap (rowToEpisode unquote fileExists now) := by
    unfold get_recent_podcasts
    rw [h, if_neg (by simp : ¬(true = false))]
    exact buildEpisodes_eq unquote fileExists now (queryRows db limit)
  have hlen : (queryRows db limit).length ≤ limit := by
    unfold queryRows
    rw [List.length_take]
    exact min_le_left _ _
  refine ⟨hget, ?_, ?_, ?_⟩
  · exact (List.sorted_insertionSort rowLe _).sublist (List.take_sublist _ _)
  · rw [hget]
    exact le_trans (List.length_filterMap_le _ _) hlen
  · intro r _ url hurl hstart hnex
    unfold rowToEpisode
    rw [hurl]
    dsimp only
    rw [if_pos hstart, if_neg (by rw [hnex]; simp)]

/-- C3 witness: the amended characterization applied to the two-row store
with N = 1. -/
theorem get_recent_podcasts_amended_witness :
    get_recent_podcasts true exDb (fun s => s) exFileExists 0 1
      = (queryRows exDb 1).filterMap (rowToEpisode (fun s => s) exFileExists 0)
    ∧ (get_recent_podcasts true exDb (fun s => s) exFileExists 0 1).length ≤ 1 := by
  have h := get_recent_podcasts_amended true exDb (fun s => s) exFileExists 0 1 rfl
  exact ⟨h.1, h.2.2.1⟩

-- ### C8: device scanner

theorem foldl_append_filter_map {α β : Type} (p : α → Bool) (g : α → β) :
    ∀ (l : List α) (acc : List β),
      l.foldl (fun a x => if p x = true then a ++ [g x] else a) acc
        = acc ++ (l.filter p).map g := by
  intro l
  induction l with
  | nil =>
    intro acc
    simp
  | cons x rest ih =>
    intro acc
    by_cases hx : p x = true
    · simp [hx, ih, List.filter_cons]
    · simp [hx, ih, List.filter_cons]

/-- C8: when the device is connected the scanner returns exactly the glob
entries it managed to iterate — all of them, or only those before a read
error — that are regular files, not dot-prefixed, and have a recognized
audio extension after lower-casing, each as a `DeviceFile` whose name is the
relative path and whose path is the absolute path under the device root,
with the keep flag initially false. -/
theorem get_device_files_contract (connected : Bool) (listing : List FsEntry)
    (errAt : Option Nat) (hc : connected = true) :
    get_device_files connected listing errAt
      = ((scannedEntries listing errAt).filter entryKept).map mkDeviceFile
    ∧ (∀ d, d ∈ get_device_files connected listing errAt ↔
        ∃ e ∈ scannedEntries listing errAt,
          e.isFile = true ∧ entryHidden e = false
          ∧ audioExtensions.contains (strLower (pathSuffix e.rel)) = true
          ∧ d = mkDeviceFile e)
    ∧ (∀ d ∈ get_device_files connected listing errAt,
        d.path = devicePath ++ "/" ++ d.name ∧ d.keep = false) := by
  have heq : get_device_files connected listing errAt
      = ((scannedEntries listing errAt).filter entryKept).map mkDeviceFile := by
    unfold get_device_files
    rw [hc, if_neg (by simp : ¬(true = false))]
    rw [foldl_append_filter_map]
    simp
  refine ⟨heq, ?_, ?_⟩
  · intro d
    rw [heq]
    constructor
    · intro hd
      obtain ⟨e, he, rfl⟩ := List.mem_map.mp hd
      have hf := List.mem_filter.mp he
      have hk := hf.2
      unfold entryKept at hk
      simp only [Bool.and_eq_true, Bool.not_eq_true'] at hk
      exact ⟨e, hf.1, hk.1.1, hk.1.2, hk.2, rfl⟩
    · rintro ⟨e, he, h1, h2, h3, rfl⟩
      refine List.mem_map.mpr ⟨e, List.mem_filter.mpr ⟨he, ?_⟩, rfl⟩
      unfold entryKept
      rw [h1, h2, h3]
      rfl
  · intro d hd
    rw [heq] at hd
    obtain ⟨e, _, rfl⟩ := List.mem_map.mp hd
    exact ⟨rfl, rfl⟩

/-- C8 witness: a five-entry listing with a dotfile, a non-audio file, a
directory and an upper-case-extension audio file; exactly the two audio
files are returned. -/
theorem get_device_files_contract_witness :
    get_device_files true exListing none
      = [mkDeviceFile ⟨"Podcasts/a.mp3", true⟩, mkDeviceFile ⟨"B.M4A", true⟩] := by
  rw [(get_device_files_contract true exListing none rfl).1]
  decide
